import Mathlib

/-!
# Verification of `models/iwae.py` (IWAE model)

Shallow embedding of the IWAE class from `models/iwae.py`.  Tensors are
modelled over the reals: an image (one sample, shape C x H x W) is a
`List (List (List ℝ))`; a latent vector is a `List ℝ`; batched per-sample
quantities in the loss are lists over the batch dimension.  Random draws
(`torch.randn_like`) are passed in as explicit noise arguments.
-/

namespace PyTorchVAE

noncomputable section

/-- A single spatial plane (H x W) of real values. -/
abbrev Plane := List (List ℝ)

/-- An image: a list of channel planes (C x H x W). -/
abbrev Image := List Plane

/-- Zero-padded read of a plane at integer coordinates: out-of-range
reads (negative or beyond the extent) give 0, which is exactly the
`padding` semantics of `nn.Conv2d` with zero padding. -/
def planeGet (p : Plane) (i j : ℤ) : ℝ :=
  if 0 ≤ i ∧ 0 ≤ j then (p.getD i.toNat []).getD j.toNat 0 else 0

/-- Dot product of two real lists (truncating to the shorter one). -/
def dot (xs ys : List ℝ) : ℝ :=
  (List.zipWith (· * ·) xs ys).sum

/-- Layer `nn.Linear`: `weight` is out_features x in_features, `bias` has
out_features entries; `apply` computes `weight @ x + bias`. -/
structure LinearLayer where
  weight : List (List ℝ)
  bias : List ℝ

def LinearLayer.apply (L : LinearLayer) (x : List ℝ) : List ℝ :=
  List.zipWith (fun row b => dot row x + b) L.weight L.bias

/-- Build a `nn.Linear(inF, outF)` with parameter entries supplied by
`w` (row, column) and `b` (row). -/
def mkLinear (outF inF : ℕ) (w : ℕ → ℕ → ℝ) (b : ℕ → ℝ) : LinearLayer :=
  ⟨(List.range outF).map fun o => (List.range inF).map fun i => w o i,
   (List.range outF).map b⟩

/-- Layer `nn.Conv2d`: `weight` is outC x inC x k x k. -/
structure Conv2dLayer where
  weight : List (List Plane)
  bias : List ℝ
  stride : ℕ
  padding : ℕ

/-- One output plane of a 2-D cross-correlation: `ker` is the inC x k x k
filter, `b` its bias, output spatial size `Hout x Wout`. -/
def conv2dPlane (ker : List Plane) (b : ℝ) (s p : ℕ) (x : Image)
    (Hout Wout : ℕ) : Plane :=
  (List.range Hout).map fun i =>
    (List.range Wout).map fun j =>
      b + ((x.zip ker).map fun ck =>
        ((List.range ck.2.length).map fun (ki : ℕ) =>
          ((List.range (ck.2.getD ki []).length).map fun (kj : ℕ) =>
            planeGet ck.1 ((i * s + ki : ℤ) - p) ((j * s + kj : ℤ) - p) *
              planeGet ck.2 (ki : ℤ) (kj : ℤ)).sum).sum).sum

/-- Apply a `nn.Conv2d` to an image.  Output spatial size is
`(H + 2p - k) / s + 1` (floor), output channel count is the number of
filters. -/
def Conv2dLayer.apply (L : Conv2dLayer) (x : Image) : Image :=
  let H := (x.getD 0 []).length
  let W := ((x.getD 0 []).getD 0 []).length
  let k := ((L.weight.getD 0 []).getD 0 []).length
  let Hout := (H + 2 * L.padding - k) / L.stride + 1
  let Wout := (W + 2 * L.padding - k) / L.stride + 1
  List.zipWith (fun ker b => conv2dPlane ker b L.stride L.padding x Hout Wout)
    L.weight L.bias

/-- Build a `nn.Conv2d(inC, outC, kernel_size=k, stride=s, padding=p)`
with parameter entries supplied by `w` and `b`. -/
def mkConv (outC inC k s p : ℕ) (w : ℕ → ℕ → ℕ → ℕ → ℝ) (b : ℕ → ℝ) :
    Conv2dLayer :=
  ⟨(List.range outC).map fun oc => (List.range inC).map fun ic =>
      (List.range k).map fun ki => (List.range k).map fun kj => w oc ic ki kj,
   (List.range outC).map b, s, p⟩

/-- Layer `nn.ConvTranspose2d`: `weight` is inC x outC x k x k. -/
structure ConvT2dLayer where
  weight : List (List Plane)
  bias : List ℝ
  stride : ℕ
  padding : ℕ
  output_padding : ℕ

/-- Strided read used by transposed convolution: contributes only when
both coordinates are nonnegative multiples of the stride. -/
def strideGet (p : Plane) (s : ℕ) (a b : ℤ) : ℝ :=
  if 0 ≤ a ∧ 0 ≤ b ∧ (s : ℤ) ∣ a ∧ (s : ℤ) ∣ b then
    planeGet p (a / s) (b / s)
  else 0

/-- Apply a `nn.ConvTranspose2d` to an image.  Output spatial size is
`(H - 1) * s - 2p + k + output_padding`; output channel count is the
second weight dimension (= the bias length for well-formed layers). -/
def ConvT2dLayer.apply (L : ConvT2dLayer) (x : Image) : Image :=
  let H := (x.getD 0 []).length
  let W := ((x.getD 0 []).getD 0 []).length
  let k := ((L.weight.getD 0 []).getD 0 []).length
  let Hout := (H - 1) * L.stride + k + L.output_padding - 2 * L.padding
  let Wout := (W - 1) * L.stride + k + L.output_padding - 2 * L.padding
  (List.range L.bias.length).map fun oc =>
    (List.range Hout).map fun i =>
      (List.range Wout).map fun j =>
        L.bias.getD oc 0 +
          ((List.range x.length).map fun ic =>
            ((List.range k).map fun (ki : ℕ) =>
              ((List.range k).map fun (kj : ℕ) =>
                strideGet (x.getD ic []) L.stride
                    ((i + L.padding : ℤ) - ki) ((j + L.padding : ℤ) - kj) *
                  planeGet ((L.weight.getD ic []).getD oc []) (ki : ℤ)
                    (kj : ℤ)).sum).sum).sum

/-- Build a `nn.ConvTranspose2d(inC, outC, kernel_size=k, stride=s,
padding=p, output_padding=op)`. -/
def mkConvT (inC outC k s p op : ℕ) (w : ℕ → ℕ → ℕ → ℕ → ℝ) (b : ℕ → ℝ) :
    ConvT2dLayer :=
  ⟨(List.range inC).map fun ic => (List.range outC).map fun oc =>
      (List.range k).map fun ki => (List.range k).map fun kj => w ic oc ki kj,
   (List.range outC).map b, s, p, op⟩

/-- Per-channel batch-norm parameters (scale, shift, running mean,
running variance). -/
structure BNC where
  gamma : ℝ
  beta : ℝ
  mean : ℝ
  var : ℝ

/-- Layer `nn.BatchNorm2d` (evaluation-mode normalization with per-channel
affine parameters). -/
structure BatchNorm2dLayer where
  chans : List BNC
  eps : ℝ

def BatchNorm2dLayer.apply (L : BatchNorm2dLayer) (x : Image) : Image :=
  List.zipWith (fun p c =>
      p.map fun row => row.map fun a =>
        (a - c.mean) / Real.sqrt (c.var + L.eps) * c.gamma + c.beta)
    x L.chans

def mkBN (c : ℕ) (f : ℕ → BNC) : BatchNorm2dLayer :=
  ⟨(List.range c).map f, 1e-5⟩

/-- Layer `nn.LeakyReLU()` with the default negative slope 0.01, elementwise. -/
def leakyReLU (a : ℝ) : ℝ :=
  if 0 ≤ a then a else 0.01 * a

def leakyImage (x : Image) : Image :=
  x.map fun p => p.map fun row => row.map leakyReLU

/-- Layer `nn.Tanh()`, elementwise. -/
def tanhImage (x : Image) : Image :=
  x.map fun p => p.map fun row => row.map Real.tanh

/-- Operation `torch.flatten(result, start_dim=1)` on a single sample: concatenate
all channel rows into one vector. -/
def flattenImage (x : Image) : List ℝ :=
  (x.map fun p => p.flatten).flatten

/-- Operation `.view(-1, 512, 2, 2)` on one sample's length-2048 feature vector
(the `512` is hard-coded in `IWAE.decode`). -/
def view512 (v : List ℝ) : Image :=
  (List.range 512).map fun c =>
    (List.range 2).map fun i =>
      (List.range 2).map fun j => v.getD (c * 4 + i * 2 + j) 0

/-- Python exceptions relevant to this module. -/
inductive PyErr where
  | nameError (name : String)
  | indexError
  deriving DecidableEq, Repr

/-- The dictionary returned by `loss_function`
(`{'loss': _, 'Reconstruction Loss': _, 'KLD': _}`). -/
structure LossOut where
  loss : ℝ
  reconstructionLoss : ℝ
  kld : ℝ

/-- One heterogeneous entry of the Python list returned by `forward`. -/
inductive PyTensor where
  | image (x : Image)
  | vec (v : List ℝ)

/-- Project the vector payload of a `PyTensor` (images project to `[]`). -/
def PyTensor.vecOf : PyTensor → List ℝ
  | .image _ => []
  | .vec v => v

/-- The `IWAE` module state: `latent_dim` and `num_samples` plus the
layers built by `__init__`. Each encoder/decoder block is a convolution
followed by a batch norm (the LeakyReLU has no parameters). -/
structure IWAE where
  latent_dim : ℕ
  num_samples : ℕ
  encoder : List (Conv2dLayer × BatchNorm2dLayer)
  fc_mu : LinearLayer
  fc_var : LinearLayer
  decoder_input : LinearLayer
  decoder : List (ConvT2dLayer × BatchNorm2dLayer)
  final_convT : ConvT2dLayer
  final_bn : BatchNorm2dLayer
  final_conv : Conv2dLayer

/-- All randomly initialized parameters of the network, indexed by block
and position. -/
structure LayerParams where
  encW : ℕ → ℕ → ℕ → ℕ → ℕ → ℝ
  encB : ℕ → ℕ → ℝ
  encBN : ℕ → ℕ → BNC
  fcMuW : ℕ → ℕ → ℝ
  fcMuB : ℕ → ℝ
  fcVarW : ℕ → ℕ → ℝ
  fcVarB : ℕ → ℝ
  decInW : ℕ → ℕ → ℝ
  decInB : ℕ → ℝ
  decW : ℕ → ℕ → ℕ → ℕ → ℕ → ℝ
  decB : ℕ → ℕ → ℝ
  decBN : ℕ → ℕ → BNC
  finW : ℕ → ℕ → ℕ → ℕ → ℝ
  finB : ℕ → ℝ
  finBN : ℕ → BNC
  outW : ℕ → ℕ → ℕ → ℕ → ℝ
  outB : ℕ → ℝ

/-- Constructor `IWAE.__init__` for a nonempty effective `hidden_dims` list `hd`.
Encoder blocks take channel counts `in_channels :: hd` pairwise; the fc
layers and `decoder_input` use `hd[-1] * 4` BEFORE the in-place
`hd.reverse()`; the decoder blocks and `final_layer` use the REVERSED
list, so `final_layer` works on `hd.reverse[-1] = hd[0]` channels and its
last convolution hard-codes `out_channels=3`. -/
def IWAE.initModel (in_channels latent_dim : ℕ) (hd : List ℕ)
    (num_samples : ℕ) (θ : LayerParams) : IWAE :=
  let pairs := (in_channels :: hd).zip hd
  let encoder := (List.range pairs.length).map fun i =>
    (mkConv (pairs.getD i (0, 0)).2 (pairs.getD i (0, 0)).1 3 2 1
        (θ.encW i) (θ.encB i),
     mkBN (pairs.getD i (0, 0)).2 (θ.encBN i))
  let last := hd.getLastD 0
  let hdR := hd.reverse
  let dpairs := hdR.zip hdR.tail
  let decoder := (List.range dpairs.length).map fun i =>
    (mkConvT (dpairs.getD i (0, 0)).1 (dpairs.getD i (0, 0)).2 3 2 1 1
        (θ.decW i) (θ.decB i),
     mkBN (dpairs.getD i (0, 0)).2 (θ.decBN i))
  let fin := hdR.getLastD 0
  { latent_dim := latent_dim
    num_samples := num_samples
    encoder := encoder
    fc_mu := mkLinear latent_dim (last * 4) θ.fcMuW θ.fcMuB
    fc_var := mkLinear latent_dim (last * 4) θ.fcVarW θ.fcVarB
    decoder_input := mkLinear (last * 4) latent_dim θ.decInW θ.decInB
    decoder := decoder
    final_convT := mkConvT fin fin 3 2 1 1 θ.finW θ.finB
    final_bn := mkBN fin θ.finBN
    final_conv := mkConv 3 fin 3 1 1 θ.outW θ.outB }

/-- Constructor `IWAE.__init__` as called: `hidden_dims=None` selects the default
`[32, 64, 128, 256, 512]`; an empty list raises `IndexError` at
`hidden_dims[-1]`.  The second component is the caller-visible value of
the `hidden_dims` argument after construction (Python lists are passed
by reference and `hidden_dims.reverse()` mutates in place). -/
def IWAE.init (in_channels latent_dim : ℕ) (hidden_dims : Option (List ℕ))
    (num_samples : ℕ) (θ : LayerParams) :
    Except PyErr (IWAE × Option (List ℕ)) :=
  let hd := hidden_dims.getD [32, 64, 128, 256, 512]
  if hd.isEmpty then .error .indexError
  else .ok (IWAE.initModel in_channels latent_dim hd num_samples θ,
            hidden_dims.map List.reverse)

/-- One encoder block: Conv2d → BatchNorm2d → LeakyReLU, folded over the
blocks (`nn.Sequential`). -/
def IWAE.encoderApply (m : IWAE) (x : Image) : Image :=
  m.encoder.foldl (fun acc cb => leakyImage (cb.2.apply (cb.1.apply acc))) x

/-- Method `IWAE.encode`: run the encoder, flatten from dim 1, and return
`[mu, log_var]` through the two fc heads. -/
def IWAE.encode (m : IWAE) (input : Image) : List (List ℝ) :=
  let result := m.encoderApply input
  let result := flattenImage result
  [m.fc_mu.apply result, m.fc_var.apply result]

/-- One decoder block: ConvTranspose2d → BatchNorm2d → LeakyReLU. -/
def IWAE.decoderApply (m : IWAE) (x : Image) : Image :=
  m.decoder.foldl (fun acc cb => leakyImage (cb.2.apply (cb.1.apply acc))) x

/-- Stage `self.final_layer`: ConvTranspose2d → BatchNorm2d → LeakyReLU →
Conv2d(·, out_channels=3) → Tanh. -/
def IWAE.finalLayerApply (m : IWAE) (x : Image) : Image :=
  let r := m.final_convT.apply x
  let r := leakyImage (m.final_bn.apply r)
  let r := m.final_conv.apply r
  tanhImage r

/-- Method `IWAE.decode`: `decoder_input`, `.view(-1, 512, 2, 2)`, decoder
blocks, then `final_layer`. -/
def IWAE.decode (m : IWAE) (z : List ℝ) : Image :=
  let result := m.decoder_input.apply z
  let result := view512 result
  let result := m.decoderApply result
  m.finalLayerApply result

/-- Method `IWAE.reparameterize`: `std = exp(0.5 * logvar)`;
`eps = torch.randn_like(std)` is passed in as the explicit noise
argument; returns `eps * std + mu`. -/
def IWAE.reparameterize (mu logvar eps : List ℝ) : List ℝ :=
  let std := logvar.map fun v => Real.exp (0.5 * v)
  List.zipWith (· + ·) (List.zipWith (· * ·) eps std) mu

/-- Method `IWAE.forward`: encode, reparameterize, then return the Python list
`[decode(z), input, mu, log_var, z, eps]` where the returned
`eps = (z - mu) / log_var` (NOT divided by the standard deviation). -/
def IWAE.forward (m : IWAE) (input : Image) (noise : List ℝ) :
    List PyTensor :=
  let enc := m.encode input
  let mu := enc.getD 0 []
  let log_var := enc.getD 1 []
  let z := IWAE.reparameterize mu log_var noise
  let eps := List.zipWith (fun a b => a / b)
    (List.zipWith (fun a b => a - b) z mu) log_var
  [.image (m.decode z), .image input, .vec mu, .vec log_var, .vec z, .vec eps]

/-- Mean of a list of reals (`.mean(-1)`). -/
def meanList (l : List ℝ) : ℝ := l.sum / l.length

/-- Per-sample `((recons - input) ** 2).flatten(1).mean(-1)`. -/
def reconErr (r i : Image) : ℝ :=
  meanList (((List.zipWith (fun pa pb =>
      List.zipWith (fun ra rb =>
        List.zipWith (fun a b => (a - b) ^ 2) ra rb) pa pb) r i).map
        fun p => p.flatten).flatten)

/-- The local names bound in `IWAE.loss_function`'s body before the line
`log_weight = (recons_loss + E_log_p_z - E_log_q_z).detach().data`
(function parameters and prior assignments, in source order). -/
def lossFunctionLocals : List String :=
  ["recons", "input", "mu", "log_var", "z", "eps", "kld_weight",
   "log_p_x_z", "pi", "E_log_q_z", "E_log_p_z"]

/-- The unbound name read at the `log_weight` line of `loss_function`. -/
def reconsLossName : String := "recons_loss"

/-- Method `IWAE.loss_function`.  Arguments are batched per-sample tensors:
`recons`/`input` are batches of images, `mu`/`log_var`/`z`/`eps` batches
of latent vectors, `M_N` the kwarg `kwargs['M_N']`.  The body binds
`log_p_x_z` (per-sample reconstruction error), `pi`, `E_log_q_z` and
`E_log_p_z`, and then reads the name `recons_loss`, which is bound
nowhere in the function (nor at module scope, nor a builtin): Python
raises `NameError: name 'recons_loss' is not defined` at that line, so
the softmax weights, `kld_loss`, `loss` and the result dictionary are
never computed. -/
def IWAE.loss_function (m : IWAE) (recons input : List Image)
    (mu log_var z eps : List (List ℝ)) (M_N : ℝ) : Except PyErr LossOut :=
  let kld_weight := M_N
  let log_p_x_z := List.zipWith reconErr recons input
  let pi := Real.pi
  let E_log_q_z := List.zipWith (fun epsRow lvRow =>
    (List.zipWith (fun e lv =>
      -0.5 * e ^ 2 - 0.5 * Real.log (2 * pi) - lv) epsRow lvRow).sum) eps log_var
  let E_log_p_z := z.map fun zRow =>
    (zRow.map fun zi => -0.5 * zi ^ 2 - 0.5 * Real.log (2 * pi)).sum
  -- `log_weight = (recons_loss + E_log_p_z - E_log_q_z).detach().data`:
  -- `recons_loss` must resolve against the bound locals, and it does not.
  if h : reconsLossName ∈ lossFunctionLocals then
    absurd h (by decide)
  else
    let _ := (kld_weight, log_p_x_z, E_log_q_z, E_log_p_z, mu)
    .error (.nameError reconsLossName)

/-- A concrete all-zero parameter assignment (batch-norm scale 0, shift
0, running mean 0, running variance 1). -/
def θ0 : LayerParams :=
  { encW := fun _ _ _ _ _ => 0, encB := fun _ _ => 0
    encBN := fun _ _ => ⟨0, 0, 0, 1⟩
    fcMuW := fun _ _ => 0, fcMuB := fun _ => 0
    fcVarW := fun _ _ => 0, fcVarB := fun _ => 0
    decInW := fun _ _ => 0, decInB := fun _ => 0
    decW := fun _ _ _ _ _ => 0, decB := fun _ _ => 0
    decBN := fun _ _ => ⟨0, 0, 0, 1⟩
    finW := fun _ _ _ _ => 0, finB := fun _ => 0
    finBN := fun _ => ⟨0, 0, 0, 1⟩
    outW := fun _ _ _ _ => 0, outB := fun _ => 0 }

/-- A concrete 1-channel 4x4 zero input image. -/
def x4 : Image := [List.replicate 4 (List.replicate 4 (0 : ℝ))]

end

end PyTorchVAE

namespace PyTorchVAE

/-! ## Theorems -/

/-- C1: `loss_function` never returns the metrics dictionary: for
every tuple of forward outputs and every weight coefficient `M_N` it
raises `NameError` (the per-sample reconstruction error is bound as
`log_p_x_z`, but the `log_weight` line reads the unbound name
`recons_loss`), contradicting the claim that it returns normally a
dictionary with keys 'loss', 'Reconstruction Loss' and 'KLD'. -/
theorem loss_function_always_raises_nameError (m : IWAE)
    (recons input : List Image) (mu log_var z eps : List (List ℝ))
    (M_N : ℝ) :
    m.loss_function recons input mu log_var z eps M_N =
      .error (.nameError reconsLossName) := rfl

/-- C2: the importance-weighting algorithm is never executed: at a
concrete forward-output tuple, `loss_function` raises `NameError` on the
line `log_weight = (recons_loss + E_log_p_z - E_log_q_z).detach().data`,
before any softmax weight or weighted sum is formed. -/
theorem loss_function_nameError_before_algorithm :
    (IWAE.initModel 3 128 [32, 64, 128, 256, 512] 5 θ0).loss_function
      [x4] [x4] [[0, 1]] [[0, 1]] [[0, 1]] [[0, 1]] 0.005 =
      .error (.nameError reconsLossName) := rfl

/-- C8: no importance weights are ever produced: on a concrete batch
of two samples, `loss_function` raises `NameError` at the `log_weight`
line, one line before `weight = F.softmax(log_weight, dim=0)`, so no
nonnegative normalized weight vector exists. -/
theorem loss_function_nameError_before_softmax :
    (IWAE.initModel 1 2 [16] 3 θ0).loss_function
      [x4, x4] [x4, x4] [[0, 0], [1, 1]] [[0, 0], [1, 1]] [[0, 0], [1, 1]]
      [[0, 0], [1, 1]] 1 = .error (.nameError reconsLossName) := rfl

/-- C9: `num_samples` is stored but never read: two models built
with the same arguments except for `num_samples` compute identical
`forward` outputs and identical `loss_function` results on every input. -/
theorem num_samples_never_influences_outputs (in_ch latent : ℕ)
    (hd : List ℕ) (n₁ n₂ : ℕ) (θ : LayerParams) (x : Image)
    (noise : List ℝ) (recons input : List Image)
    (mu lv z eps : List (List ℝ)) (M_N : ℝ) :
    (IWAE.initModel in_ch latent hd n₁ θ).forward x noise =
      (IWAE.initModel in_ch latent hd n₂ θ).forward x noise ∧
    (IWAE.initModel in_ch latent hd n₁ θ).loss_function recons input mu lv
        z eps M_N =
      (IWAE.initModel in_ch latent hd n₂ θ).loss_function recons input mu
        lv z eps M_N :=
  ⟨rfl, rfl⟩

/-- C10: the constructor mutates the caller-supplied `hidden_dims`
list in place (`hidden_dims.reverse()`): after a successful
construction, the caller's list is its own reversal. -/
theorem init_reverses_callers_hidden_dims (in_ch latent : ℕ)
    (hd : List ℕ) (ns : ℕ) (θ : LayerParams) (h : hd ≠ []) :
    IWAE.init in_ch latent (some hd) ns θ =
      .ok (IWAE.initModel in_ch latent hd ns θ, some hd.reverse) := by
  simp [IWAE.init, List.isEmpty_iff, h]

/-- Witness for C10 at `hidden_dims = [32, 64]`. -/
theorem init_reverses_callers_hidden_dims_witness :
    ([32, 64] ≠ ([] : List ℕ)) ∧
      IWAE.init 3 4 (some [32, 64]) 5 θ0 =
        .ok (IWAE.initModel 3 4 [32, 64] 5 θ0, some [64, 32]) :=
  ⟨by decide, by
    simpa using init_reverses_callers_hidden_dims 3 4 [32, 64] 5 θ0
      (by decide)⟩

/-! ### Shape helper lemmas -/

theorem linearLayer_apply_length (L : LinearLayer) (x : List ℝ) :
    (L.apply x).length = min L.weight.length L.bias.length := by
  simp [LinearLayer.apply, List.length_zipWith]

theorem mkLinear_length_apply (outF inF : ℕ) (w : ℕ → ℕ → ℝ) (b : ℕ → ℝ)
    (x : List ℝ) : ((mkLinear outF inF w b).apply x).length = outF := by
  simp [linearLayer_apply_length, mkLinear]

theorem conv2dLayer_apply_length (L : Conv2dLayer) (x : Image) :
    (L.apply x).length = min L.weight.length L.bias.length := by
  simp [Conv2dLayer.apply, List.length_zipWith]

theorem tanhImage_length (x : Image) : (tanhImage x).length = x.length := by
  simp [tanhImage]

/-- The decoder's last parametric operation is the hard-coded
`nn.Conv2d(hidden_dims[-1], out_channels=3, ...)`, so any model built by
the constructor decodes to exactly 3 channel planes. -/
theorem initModel_decode_length (in_ch latent : ℕ) (hd : List ℕ)
    (ns : ℕ) (θ : LayerParams) (z : List ℝ) :
    ((IWAE.initModel in_ch latent hd ns θ).decode z).length = 3 := by
  simp [IWAE.decode, IWAE.finalLayerApply, IWAE.initModel, tanhImage_length,
    conv2dLayer_apply_length, mkConv]

/-- C4: `encode` returns exactly two vectors of length
`latent_dim`: the list `[mu, log_var]`, each head a
`nn.Linear(hidden_dims[-1] * 4, latent_dim)` whose output length is its
row count `latent_dim`. -/
theorem encode_two_vectors_of_latent_dim (in_ch latent : ℕ)
    (hd : List ℕ) (ns : ℕ) (θ : LayerParams) (x : Image) :
    ((IWAE.initModel in_ch latent hd ns θ).encode x).length = 2 ∧
    (((IWAE.initModel in_ch latent hd ns θ).encode x).getD 0 []).length =
      latent ∧
    (((IWAE.initModel in_ch latent hd ns θ).encode x).getD 1 []).length =
      latent := by
  refine ⟨rfl, ?_, ?_⟩ <;>
    simp [IWAE.encode, IWAE.initModel, mkLinear_length_apply]

/-- C5 counterexample: for a model configured with
`in_channels = 1`, `decode` returns 3 channel planes, not 1: the final
convolution hard-codes `out_channels=3`. -/
theorem decode_channels_ne_in_channels :
    ((IWAE.initModel 1 1 [512] 1 θ0).decode (List.replicate 1 0)).length ≠
      1 := by
  rw [initModel_decode_length]
  decide

/-- C5 amended: for every latent vector, `decode` returns an image
with exactly 3 channel planes (the hard-coded `out_channels=3` of the
last convolution), which matches `in_channels` only when
`in_channels = 3`. -/
theorem decode_always_three_channels (in_ch latent : ℕ) (hd : List ℕ)
    (ns : ℕ) (θ : LayerParams) (z : List ℝ) :
    ((IWAE.initModel in_ch latent hd ns θ).decode z).length = 3 :=
  initModel_decode_length in_ch latent hd ns θ z

/-! ### Range of `tanh` -/

theorem tanh_lt_one (x : ℝ) : Real.tanh x < 1 := by
  rw [Real.tanh_eq_sinh_div_cosh]
  exact (div_lt_one (Real.cosh_pos x)).mpr (Real.sinh_lt_cosh x)

theorem neg_one_lt_tanh (x : ℝ) : -1 < Real.tanh x := by
  rw [Real.tanh_eq_sinh_div_cosh, lt_div_iff₀ (Real.cosh_pos x)]
  have h := Real.sinh_lt_cosh (-x)
  rw [Real.sinh_neg, Real.cosh_neg] at h
  linarith

/-- Reading any entry of `tanhImage y` (with the default values `[]`,
`[]`, `0` used out of range) gives `tanh` of the corresponding entry of
`y`, since `tanh 0 = 0` absorbs the defaults. -/
theorem tanhImage_getD (y : Image) (i j k : ℕ) :
    (((tanhImage y).getD i []).getD j []).getD k 0 =
      Real.tanh (((y.getD i []).getD j []).getD k 0) := by
  rw [tanhImage]
  rcases hy : y[i]? with _ | p
  · simp [List.getD_eq_getElem?_getD, List.getElem?_map, hy, Real.tanh_zero]
  · rcases hp : p[j]? with _ | row
    · simp [List.getD_eq_getElem?_getD, List.getElem?_map, hy, hp,
        Real.tanh_zero]
    · rcases hr : row[k]? with _ | a
      · simp [List.getD_eq_getElem?_getD, List.getElem?_map, hy, hp, hr,
          Real.tanh_zero]
      · simp [List.getD_eq_getElem?_getD, List.getElem?_map, hy, hp, hr]

/-- C6: every entry of every image returned by `decode` (hence every
reconstruction returned by `forward`) lies strictly between -1 and 1:
the final layer ends in `nn.Tanh()`.  Entries are read with
out-of-range defaults 0, which also lie in the interval. -/
theorem decode_entries_in_open_unit_interval (m : IWAE) (z : List ℝ)
    (i j k : ℕ) :
    -1 < (((m.decode z).getD i []).getD j []).getD k 0 ∧
      (((m.decode z).getD i []).getD j []).getD k 0 < 1 := by
  have hd : m.decode z =
      tanhImage (m.final_conv.apply
        (leakyImage (m.final_bn.apply
          (m.final_convT.apply
            (m.decoderApply (view512 (m.decoder_input.apply z))))))) := rfl
  rw [hd, tanhImage_getD]
  exact ⟨neg_one_lt_tanh _, tanh_lt_one _⟩

/-- C7: `reparameterize` computes the differentiable transform
`eps * exp(0.5 * logvar) + mu`, entrywise. -/
theorem reparameterize_is_affine_transform (mu logvar eps : List ℝ)
    (i : ℕ) (h1 : i < mu.length) (h2 : i < logvar.length)
    (h3 : i < eps.length) :
    (IWAE.reparameterize mu logvar eps).getD i 0 =
      eps.getD i 0 * Real.exp (0.5 * logvar.getD i 0) + mu.getD i 0 := by
  have hlen : i < (IWAE.reparameterize mu logvar eps).length := by
    simp [IWAE.reparameterize, List.length_zipWith]
    omega
  rw [List.getD_eq_getElem _ _ hlen,
    List.getD_eq_getElem _ _ h1, List.getD_eq_getElem _ _ h2,
    List.getD_eq_getElem _ _ h3]
  simp [IWAE.reparameterize, List.getElem_zipWith]

/-- Witness for C7 at `mu = [3]`, `logvar = [0]`, `eps = [2]`, `i = 0`. -/
theorem reparameterize_is_affine_transform_witness :
    (0 < [(3 : ℝ)].length ∧ 0 < [(0 : ℝ)].length ∧ 0 < [(2 : ℝ)].length) ∧
      (IWAE.reparameterize [3] [0] [2]).getD 0 0 =
        [(2 : ℝ)].getD 0 0 * Real.exp (0.5 * [(0 : ℝ)].getD 0 0) +
          [(3 : ℝ)].getD 0 0 :=
  ⟨⟨by decide, by decide, by decide⟩,
    reparameterize_is_affine_transform [3] [0] [2] 0 (by decide)
      (by decide) (by decide)⟩

/-! ### C3: the six outputs of `forward` -/

/-- C3 amended: `forward` returns exactly six tensors; the second
is the input unchanged, the first equals `decode` of the fifth, and the
sixth equals `(z - mu) / log_var` entrywise — division by the
log-variance itself, not by the standard deviation
`exp(0.5 * log_var)`. -/
theorem forward_six_components (m : IWAE) (x : Image) (noise : List ℝ) :
    (m.forward x noise).length = 6 ∧
    (m.forward x noise).getD 1 (.vec []) = .image x ∧
    (m.forward x noise).getD 0 (.vec []) =
      .image (m.decode (((m.forward x noise).getD 4 (.vec [])).vecOf)) ∧
    ((m.forward x noise).getD 5 (.vec [])).vecOf =
      List.zipWith (fun a b => a / b)
        (List.zipWith (fun a b => a - b)
          (((m.forward x noise).getD 4 (.vec [])).vecOf)
          (((m.forward x noise).getD 2 (.vec [])).vecOf))
        (((m.forward x noise).getD 3 (.vec [])).vecOf) :=
  ⟨rfl, rfl, rfl, rfl⟩

/-- Parameters that are all zero except `fc_var`'s bias, which is the
constant 2, so the encoder head yields `mu = [0]`, `log_var = [2]`. -/
noncomputable def θc : LayerParams := { θ0 with fcVarB := fun _ => 2 }

/-- The forward outputs of the `in_channels=1`, `latent_dim=1`,
`hidden_dims=[512]` model with parameters `θc` on the zero image, with
noise draw `[1]`. -/
noncomputable def cexOut : List PyTensor :=
  (IWAE.initModel 1 1 [512] 5 θc).forward x4 [1]

theorem sum_zipWith_mul_replicate_zero (n : ℕ) (xs : List ℝ) :
    (List.zipWith (· * ·) (List.replicate n (0 : ℝ)) xs).sum = 0 := by
  induction n generalizing xs with
  | zero => simp
  | succ k ih =>
    cases xs with
    | nil => simp
    | cons a t => simp [List.replicate_succ, ih]

theorem dot_range_map_zero (n : ℕ) (xs : List ℝ) :
    dot ((List.range n).map fun _ => (0 : ℝ)) xs = 0 := by
  rw [dot, List.map_const']
  exact sum_zipWith_mul_replicate_zero (List.range n).length xs

theorem range_one_eq : List.range 1 = [0] := by decide

/-- A single-output `nn.Linear` whose weights are all zero returns its
bias, whatever the input features are. -/
theorem mkLinear_zeroW_apply (inF : ℕ) (b : ℕ → ℝ) (f : List ℝ) :
    (mkLinear 1 inF (fun _ _ => 0) b).apply f = [b 0] := by
  rw [mkLinear, LinearLayer.apply, range_one_eq]
  simp only [List.map_cons, List.map_nil, List.zipWith_cons_cons,
    List.zipWith_nil_right]
  rw [dot_range_map_zero, zero_add]

/-- Evaluation of `encode` for a model whose two fc heads have zero weights: the
convolutional features are multiplied away and only the biases remain. -/
theorem encode_zero_fc (m : IWAE) (x : Image) (inF : ℕ) (bm bv : ℕ → ℝ)
    (hmu : m.fc_mu = mkLinear 1 inF (fun _ _ => 0) bm)
    (hvar : m.fc_var = mkLinear 1 inF (fun _ _ => 0) bv) :
    m.encode x = [[bm 0], [bv 0]] := by
  show [m.fc_mu.apply (flattenImage (m.encoderApply x)),
        m.fc_var.apply (flattenImage (m.encoderApply x))] = [[bm 0], [bv 0]]
  rw [hmu, hvar, mkLinear_zeroW_apply, mkLinear_zeroW_apply]

/-- With parameters `θc`, the fc heads ignore the (zero-weighted)
convolutional features: `encode` returns `mu = [0]`, `log_var = [2]`. -/
theorem cex_encode :
    (IWAE.initModel 1 1 [512] 5 θc).encode x4 = [[0], [2]] := by
  simpa using encode_zero_fc (IWAE.initModel 1 1 [512] 5 θc) x4 (512 * 4)
    (fun _ => 0) (fun _ => 2) rfl rfl

/-- C3 counterexample: on the concrete model and input of
`cexOut`, the sixth output of `forward` is NOT the standard-normal
noise `(z - mu) / exp(0.5 * log_var)` claimed: the code computes
`(z - mu) / log_var`, and with `mu = 0`, `log_var = 2`, noise `1` these
are `exp(1) / 2 ≠ 1`. -/
theorem forward_sixth_not_recovered_noise :
    (cexOut.getD 5 (.vec [])).vecOf ≠
      List.zipWith (fun a b => a / b)
        (List.zipWith (fun a b => a - b)
          ((cexOut.getD 4 (.vec [])).vecOf)
          ((cexOut.getD 2 (.vec [])).vecOf))
        (((cexOut.getD 3 (.vec [])).vecOf).map fun v =>
          Real.exp (0.5 * v)) := by
  have hexp : (2 : ℝ) < Real.exp 1 := by
    have h := Real.add_one_lt_exp (x := 1) one_ne_zero
    linarith
  have hpos : (0 : ℝ) < Real.exp 1 := Real.exp_pos 1
  simp only [cexOut, IWAE.forward, cex_encode, IWAE.reparameterize,
    List.getD_cons_zero, List.getD_cons_succ, PyTensor.vecOf,
    List.map_cons, List.map_nil, List.zipWith_cons_cons, List.zipWith_nil_right,
    List.zipWith_nil_left]
  norm_num
  intro hcontra
  rw [div_eq_iff (by norm_num : (2 : ℝ) ≠ 0)] at hcontra
  nlinarith

end PyTorchVAE
